import Mathlib

set_option autoImplicit false

/-!
Shallow embedding of `root_to_hdf5.py`, a batch converter of columnar
ROOT files into HDF5 files.

Modelling conventions:
* numpy element values are modelled as `Int`; a numpy array is a dtype
  string together with the list of its values.  Casting an `Int` value
  between numeric dtypes is the identity in this model.
* `uproot` (the source collaborator) is modelled per its contract: a
  source file maps tree names to a list of branch names (in the
  collaborator's reported order) and a deterministic list of record
  batches; `up.iterate` is modelled as that batch list, identical for
  the probe traversal and the streaming traversal.
* the filesystem is explicit state: a list of directories, a list of
  regular source files, an association of paths to `up.open` outcomes,
  and an association of destination paths to HDF5 file contents.
* Python exceptions are an inductive type; `except OSError` in `main`
  is the test `PyErr.isOSError`.
* `Path.resolve()` is modelled as the identity (paths are taken to be
  already absolute and symlink-free); `Path.suffix` / `Path.stem`
  follow pathlib's rfind-on-dot algorithm.
* stateful functions return their (possibly partially) updated state
  together with an optional exception, so that mutations performed
  before an exception was raised remain visible, as they do on disk.
-/

/-- Python exception classes raised or caught by the script.  `isOSError`
below records which of them the `except OSError` clause in `main` catches. -/
inductive PyErr : Type
  | fileExists (msg : String)
  | notADirectory (msg : String)
  | runtimeError (msg : String)
  | typeError (msg : String)
  | keyError (msg : String)
  | valueError (msg : String)
  | osError (msg : String)
  deriving DecidableEq, Repr

/-- FileExistsError and NotADirectoryError are OSError subclasses in Python;
RuntimeError, TypeError, KeyError and ValueError are not. -/
def PyErr.isOSError : PyErr → Bool
  | .fileExists _ => true
  | .notADirectory _ => true
  | .osError _ => true
  | .runtimeError _ => false
  | .typeError _ => false
  | .keyError _ => false
  | .valueError _ => false

/-- the `ProcessOptions` TypedDict: compression algorithm and level. -/
structure ProcessOptions : Type where
  compression : Option String
  compression_level : Option Int
  deriving DecidableEq, Repr

/-- a numpy array: element dtype plus the values (modelled as integers). -/
structure NpArray : Type where
  dtype : String
  data : List Int
  deriving DecidableEq, Repr

/-- one record batch, as yielded by `up.iterate(..., library="numpy")`:
an insertion-ordered dict from branch name to numpy array. -/
abbrev Batch : Type := List (String × NpArray)

/-- the key sequence of a batch (Python dict iteration order). -/
def Batch.keys (b : Batch) : List String := b.map (·.1)

/-- one HDF5 dataset: dtype, optional bound on growth (`maxshape`; `none`
models `maxshape=(None,)`, unbounded), compression settings, and content. -/
structure Dataset : Type where
  dtype : String
  maxshape : Option Nat
  compression : Option String
  compression_opts : Option Int
  data : List Int
  deriving DecidableEq, Repr

/-- an HDF5 file: an association from dataset path to dataset, in
creation order. -/
structure H5File : Type where
  dsets : List (String × Dataset)
  deriving DecidableEq, Repr

/-- first-match association-list lookup (Python dict access semantics). -/
def findKey {α : Type} : List (String × α) → String → Option α
  | [], _ => none
  | (k, v) :: rest, key => if key = k then some v else findKey rest key

/-- `outfile[path]` on an h5py file handle: `none` models a KeyError. -/
def H5File.get (h : H5File) (path : String) : Option Dataset :=
  findKey h.dsets path

/-- in-place mutation of the dataset stored at `path` (h5py handles alias
the file contents, so writing through a handle updates the file). -/
def H5File.set (h : H5File) (path : String) (d : Dataset) : H5File :=
  ⟨h.dsets.map (fun e => if e.1 = path then (path, d) else e)⟩

/-- one tree ("group") of a source file, per the source collaborator's
contract: the reported branch names, in order, and the deterministic
sequence of record batches `up.iterate` yields for the resolved columns. -/
structure RTree : Type where
  branchNames : List String
  batches : List Batch
  deriving DecidableEq

/-- the object returned by `up.open`: whether it passes the
`issubclass(type(file), HasBranches | up.ReadOnlyDirectory)` check, and
its trees keyed by name (`file[tree]`; a missing key is a KeyError). -/
structure RFile : Type where
  hasBranches : Bool
  trees : List (String × RTree)
  deriving DecidableEq

/-- `file[tree]` on the opened source handle. -/
def RFile.get (f : RFile) (tree : String) : Option RTree :=
  findKey f.trees tree

deriving instance DecidableEq for Except

/-- the outside world: directories, regular files, the outcome of
`up.open` per source path, and the destination filesystem contents. -/
structure World : Type where
  dirs : List String
  srcFiles : List String
  sources : List (String × Except PyErr RFile)
  fs : List (String × H5File)
  deriving DecidableEq

/-- splitting a character list on a separator, with Python `str.split`
semantics (an empty input yields one empty part; separators delimit
possibly empty parts). -/
def splitOnChar (sep : Char) : List Char → List (List Char)
  | [] => [[]]
  | c :: rest =>
    match splitOnChar sep rest with
    | [] => [[]]
    | grp :: grps => if c = sep then [] :: grp :: grps else (c :: grp) :: grps

/-- the last path component (`PurePath.name`): the text after the last
"/" separator. -/
def Path.name (p : String) : String :=
  String.mk ((splitOnChar '/' p.data).getLastD [])

/-- index of the last '.' in a character list, if any. -/
def lastDotIdx : List Char → Option Nat
  | [] => none
  | c :: rest =>
    match lastDotIdx rest with
    | some i => some (i + 1)
    | none => if c = '.' then some 0 else none

/-- `PurePath.suffix`: the extension of the final component, per
pathlib (`name[i:]` when `0 < i < len(name) - 1` for the last dot `i`). -/
def Path.suffix (p : String) : String :=
  let name := Path.name p
  let cs := name.data
  match lastDotIdx cs with
  | none => ""
  | some i => if 0 < i ∧ i < cs.length - 1 then String.mk (cs.drop i) else ""

/-- `PurePath.stem`: the final component with its suffix removed. -/
def Path.stem (p : String) : String :=
  let name := Path.name p
  let cs := name.data
  match lastDotIdx cs with
  | none => name
  | some i => if 0 < i ∧ i < cs.length - 1 then String.mk (cs.take i) else name

/-- `check_outdir`: raises NotADirectoryError unless the supplied path is
a directory. -/
def check_outdir (w : World) (outdir : String) : Except PyErr Unit :=
  if outdir ∈ w.dirs then .ok ()
  else .error (.notADirectory ("Supplied path " ++ outdir ++ " is not a directory."))

/-- `check_infiles`: raises RuntimeError at the first supplied path that
is not an existing regular file with suffix ".root" (the empty-list case
only logs a warning). -/
def check_infiles (w : World) (infiles : List String) : Except PyErr Unit :=
  match infiles with
  | [] => .ok ()
  | p :: rest =>
    if p ∈ w.srcFiles ∧ Path.suffix p = ".root" then check_infiles w rest
    else .error (.runtimeError (p ++ " is not a root file."))

/-- the destination path derived in `process_file`:
`str(Path(outdir).resolve()) + "/" + Path(infile).resolve().stem + ".hdf5"`. -/
def outName (outdir infile : String) : String :=
  outdir ++ "/" ++ Path.stem infile ++ ".hdf5"

/-- the `create_dataset` loop of `setup_outfile` over the first batch of
one tree: each column of the probe batch gets an empty dataset at path
`tree + "/" + column`, typed by the probe array's dtype, with the run's
compression configuration; `create_dataset` raises ValueError when the
path already exists in the file. -/
def createDatasets (tree : String) (b0 : Batch) (options : ProcessOptions)
    (acc : List (String × Dataset)) : List (String × Dataset) × Option PyErr :=
  match b0 with
  | [] => (acc, none)
  | (a, arr) :: rest =>
    let path := tree ++ "/" ++ a
    if (findKey acc path).isSome then
      (acc, some (.valueError ("Unable to create dataset, name already exists: " ++ path)))
    else
      createDatasets tree rest options
        (acc ++ [(path, ⟨arr.dtype, none, options.compression, options.compression_level, []⟩)])

/-- the probe loop of `setup_outfile` over all trees: looks up
`file[tree]` and `branches[tree]`, takes the first batch of the tree (the
`break` after one iteration), and creates that batch's datasets; a tree
that yields zero batches never enters the loop body. -/
def setupTrees (file : RFile) (trees : List String)
    (branches : List (String × List String)) (options : ProcessOptions)
    (acc : List (String × Dataset)) : List (String × Dataset) × Option PyErr :=
  match trees with
  | [] => (acc, none)
  | tree :: rest =>
    match file.get tree with
    | none => (acc, some (.keyError ("not found: " ++ tree)))
    | some t =>
      match findKey branches tree with
      | none => (acc, some (.keyError tree))
      | some _cols =>
        match t.batches with
        | [] => setupTrees file rest branches options acc
        | b0 :: _ =>
          match createDatasets tree b0 options acc with
          | (acc', none) => setupTrees file rest branches options acc'
          | (acc', some e) => (acc', some e)

/-- `setup_outfile`: raises FileExistsError when the destination path
already exists (before creating anything), otherwise creates the file
(`h5py.File(outfilename, "w")`) and one empty dataset per column of each
tree's first batch; the file with whatever datasets were created so far
stays on disk even when a later step raises. -/
def setup_outfile (fs : List (String × H5File)) (outfilename : String) (file : RFile)
    (trees : List String) (branches : List (String × List String))
    (options : ProcessOptions) : List (String × H5File) × Except PyErr H5File :=
  if (findKey fs outfilename).isSome then
    (fs, .error (.fileExists ("File " ++ outfilename ++ " already exists. Please delete.")))
  else
    match setupTrees file trees branches options [] with
    | (ds, none) => ((outfilename, ⟨ds⟩) :: fs, .ok ⟨ds⟩)
    | (ds, some e) => ((outfilename, ⟨ds⟩) :: fs, .error e)

/-- the nested `write` helper of `process_chunk`:
`dset.resize(dset.shape[0] + data_len, axis=0)` followed by
`dset[dset.shape[0] - data_len:] = data`.  Resizing an unbounded dataset
to a larger shape pads with the fill value, then the tail slice is
overwritten with the batch's values (numpy-to-HDF5 casting is the
identity on the modelled `Int` values). -/
def write (dset : Dataset) (data : NpArray) : Dataset :=
  let dataLen := data.data.length
  let grown :=
    if dset.data.length + dataLen ≤ dset.data.length then
      { dset with data := dset.data.take (dset.data.length + dataLen) }
    else
      { dset with data := dset.data ++ List.replicate dataLen 0 }
  { grown with data := grown.data.take (grown.data.length - dataLen) ++ data.data }

/-- `process_chunk`: for each branch of the batch (in dict order), looks
up the dataset `outfile[tree + "/" + branch]` (KeyError when absent,
which aborts the remaining writes) and appends the branch's values to it. -/
def process_chunk (array : Batch) (outfile : H5File) (tree : String)
    (options : ProcessOptions) : H5File × Option PyErr :=
  match array with
  | [] => (outfile, none)
  | (branch, data) :: rest =>
    match outfile.get (tree ++ "/" ++ branch) with
    | none => (outfile, some (.keyError ("Unable to open object: " ++ tree ++ "/" ++ branch)))
    | some dset =>
      process_chunk rest (outfile.set (tree ++ "/" ++ branch) (write dset data)) tree options

/-- the streaming loop of `process_file` over one tree's full batch
sequence: each batch is handed to `process_chunk` in emission order. -/
def streamTree (outfile : H5File) (tree : String) (batches : List Batch)
    (options : ProcessOptions) : H5File × Option PyErr :=
  match batches with
  | [] => (outfile, none)
  | b :: rest =>
    match process_chunk b outfile tree options with
    | (h, none) => streamTree h tree rest options
    | (h, some e) => (h, some e)

/-- the streaming pass of `process_file` over all trees: re-traverses
`up.iterate(file[tree], branches[tree])` independently of the probe pass. -/
def streamAll (file : RFile) (trees : List String)
    (branches : List (String × List String)) (outfile : H5File)
    (options : ProcessOptions) : H5File × Option PyErr :=
  match trees with
  | [] => (outfile, none)
  | tree :: rest =>
    match file.get tree with
    | none => (outfile, some (.keyError ("not found: " ++ tree)))
    | some t =>
      match findKey branches tree with
      | none => (outfile, some (.keyError tree))
      | some _cols =>
        match streamTree outfile tree t.batches options with
        | (h, none) => streamAll file rest branches h options
        | (h, some e) => (h, some e)

/-- the tree-list default of `process_file`: `if len(trees) == 0:
trees.append("/")` — the caller's list object is mutated in place, so the
function's returned tree list is this resolved one. -/
def resolveTrees (trees : List String) : List String :=
  if trees.length = 0 then trees ++ ["/"] else trees

/-- the branch enumeration of `process_file` when no branches were
supplied: for each tree in order, `file[tree].branches` member names in
the collaborator's reported order (KeyError when a tree is absent). -/
def enumBranches (file : RFile) (trees : List String) :
    Except PyErr (List (String × List String)) :=
  match trees with
  | [] => .ok []
  | tree :: rest =>
    match file.get tree with
    | none => .error (.keyError ("not found: " ++ tree))
    | some t =>
      match enumBranches file rest with
      | .error e => .error e
      | .ok brs => .ok ((tree, t.branchNames) :: brs)

/-- the `if len(branches) == 0` default of `process_file`: an empty dict
is replaced (by local rebinding, not caller-visible mutation) with the
full enumeration; a non-empty dict is kept as supplied. -/
def resolveBranchesIfEmpty (file : RFile) (trees : List String)
    (branches : List (String × List String)) :
    Except PyErr (List (String × List String)) :=
  if branches.length = 0 then enumBranches file trees else .ok branches

/-- point update of the destination filesystem at one path (the open
h5py handle aliases the on-disk file). -/
def fsSet (fs : List (String × H5File)) (p : String) (h : H5File) :
    List (String × H5File) :=
  fs.map (fun e => if e.1 = p then (p, h) else e)

/-- `up.open(infile)`: the world records the outcome per path; opening a
path the world knows nothing about fails like an unreadable file. -/
def openSource (w : World) (infile : String) : Except PyErr RFile :=
  match findKey w.sources infile with
  | none => .error (.osError ("file not found: " ++ infile))
  | some r => r

/-- `process_file`: open the source, derive the destination name, check
the handle's type, resolve trees (mutating the caller's list) and
branches, run the probe pass (`setup_outfile`), then the streaming pass.
Returns the updated world, the (possibly mutated) trees list, and the
raised exception if any. -/
def process_file (w : World) (infile outdir : String)
    (branches : List (String × List String)) (trees : List String)
    (options : ProcessOptions) : World × List String × Option PyErr :=
  match openSource w infile with
  | .error e => (w, trees, some e)
  | .ok file =>
    let outfilename := outName outdir infile
    if !file.hasBranches then
      (w, trees, some (.typeError
        "Expected up.open to return TTree, did you provide the right tree name?"))
    else
      let trees1 := resolveTrees trees
      match resolveBranchesIfEmpty file trees1 branches with
      | .error e => (w, trees1, some e)
      | .ok branches1 =>
        match setup_outfile w.fs outfilename file trees1 branches1 options with
        | (fs', .error e) => ({ w with fs := fs' }, trees1, some e)
        | (fs', .ok outfile) =>
          match streamAll file trees1 branches1 outfile options with
          | (h, err) => ({ w with fs := fsSet fs' outfilename h }, trees1, err)

/-- the outcome of one run: final world, final state of the shared trees
list, the per-file outcomes attempted (in order), and the uncaught
exception that aborted the run, if any. -/
structure RunResult : Type where
  world : World
  trees : List String
  outcomes : List (String × Option PyErr)
  fatal : Option PyErr

/-- the per-file loop of `main`: each file is processed with a fresh
empty branches dict but the same shared trees list; an OSError is caught
and the loop continues, any other exception propagates and aborts the
remaining run. -/
def mainLoop (w : World) (infiles : List String) (outfolder : String)
    (trees : List String) (options : ProcessOptions) : RunResult :=
  match infiles with
  | [] => ⟨w, trees, [], none⟩
  | f :: rest =>
    match process_file w f outfolder [] trees options with
    | (w', trees', none) =>
      let res := mainLoop w' rest outfolder trees' options
      ⟨res.world, res.trees, (f, none) :: res.outcomes, res.fatal⟩
    | (w', trees', some e) =>
      if e.isOSError then
        let res := mainLoop w' rest outfolder trees' options
        ⟨res.world, res.trees, (f, some e) :: res.outcomes, res.fatal⟩
      else ⟨w', trees', [(f, some e)], some e⟩

/-- `main` after argument parsing: pre-flight validation (`check_outdir`
then `check_infiles`), both fatal for the whole run before any file is
processed, then the per-file loop. -/
def runMain (w : World) (infiles : List String) (outfolder : String)
    (trees : List String) (options : ProcessOptions) : RunResult :=
  match check_outdir w outfolder with
  | .error e => ⟨w, trees, [], some e⟩
  | .ok _ =>
    match check_infiles w infiles with
    | .error e => ⟨w, trees, [], some e⟩
    | .ok _ => mainLoop w infiles outfolder trees options

/-! Specification-side descriptions of the states the code computes,
used to state the theorems below. -/

/-- the concatenation, in emission order, of one column's values across
a batch sequence (a batch not containing the column contributes
nothing). -/
def columnConcat (batches : List Batch) (c : String) : List Int :=
  match batches with
  | [] => []
  | b :: rest =>
    (match findKey b c with
     | some arr => arr.data
     | none => []) ++ columnConcat rest c

/-- a batch's row count: the length of its first array (the source
collaborator's contract makes all arrays of a batch share this length). -/
def batchRows (b : Batch) : Nat :=
  match b with
  | [] => 0
  | p :: _ => p.2.data.length

/-- the column names of a tree's probe batch (its first batch), the
ones `setup_outfile` creates datasets for; empty when the tree yields
no batch. -/
def probeKeys (t : RTree) : List String :=
  match t.batches with
  | [] => []
  | b0 :: _ => Batch.keys b0

/-- the dataset paths `setup_outfile` creates for one tree. -/
def probePaths (file : RFile) (tree : String) : List String :=
  match file.get tree with
  | none => []
  | some t => (probeKeys t).map (fun c => tree ++ "/" ++ c)

/-- the dataset paths `setup_outfile` creates across a tree list, in
creation order. -/
def probeAllPaths (file : RFile) : List String → List String
  | [] => []
  | tree :: rest => probePaths file tree ++ probeAllPaths file rest

/-- the freshly created dataset for one probed column: zero rows,
unbounded growth, the probed dtype, the run's compression settings. -/
def probeDataset (arr : NpArray) (options : ProcessOptions) : Dataset :=
  ⟨arr.dtype, none, options.compression, options.compression_level, []⟩

/-- the datasets `setup_outfile` creates for one tree's probe batch. -/
def expectedTreeDsets (tree : String) (b0 : Batch) (options : ProcessOptions) :
    List (String × Dataset) :=
  b0.map (fun p => (tree ++ "/" ++ p.1, probeDataset p.2 options))

/-- the datasets `setup_outfile` creates across a tree list. -/
def expectedDsets (file : RFile) (options : ProcessOptions) :
    List String → List (String × Dataset)
  | [] => []
  | tree :: rest =>
    (match file.get tree with
     | none => []
     | some t =>
       match t.batches with
       | [] => []
       | b0 :: _ => expectedTreeDsets tree b0 options) ++ expectedDsets file options rest

/-- the branch names the default resolution adopts for a tree (empty
for a tree the source does not have). -/
def branchNamesD (file : RFile) (tree : String) : List String :=
  match file.get tree with
  | none => []
  | some t => t.branchNames

/-- total accessor for a tree of a source file (a default empty tree for
a name the source does not have), used to state decidable hypotheses. -/
def treeD (file : RFile) (tree : String) : RTree :=
  (file.get tree).getD ⟨[], []⟩

/-! Concrete test fixtures: a small world exercised by the theorems on
concrete inputs. -/

/-- a run configuration with gzip level 4. -/
def exOptions : ProcessOptions := ⟨some "gzip", some 4⟩

/-- a two-branch tree with two conforming record batches. -/
def treeT : RTree :=
  ⟨["x", "y"],
   [[("x", ⟨"int32", [1, 2, 3]⟩), ("y", ⟨"float64", [10, 20, 30]⟩)],
    [("x", ⟨"int32", [4, 5]⟩), ("y", ⟨"float64", [40, 50]⟩)]]⟩

/-- a source file whose only tree is named "T". -/
def fileT : RFile := ⟨true, [("T", treeT)]⟩

/-- a one-branch tree registered under the root sentinel "/". -/
def rootTree : RTree :=
  ⟨["x"], [[("x", ⟨"int32", [1, 2, 3]⟩)], [("x", ⟨"int32", [4, 5]⟩)]]⟩

/-- a source file whose columns hang off the file root. -/
def fileRoot : RFile := ⟨true, [("/", rootTree)]⟩

/-- a tree that yields zero record batches. -/
def emptyTree : RTree := ⟨["x"], []⟩

/-- a source file with one empty tree named "E". -/
def fileE : RFile := ⟨true, [("E", emptyTree)]⟩

/-- a healthy world: destination directory exists, two readable root
files whose columns hang off the file root, empty destination. -/
def wOK : World :=
  ⟨["out"], ["in/a.root", "in/b.root"],
   [("in/a.root", .ok fileRoot), ("in/b.root", .ok fileRoot)], []⟩

/-- a pre-existing destination file with some content. -/
def h5Existing : H5File := ⟨[("T/x", ⟨"int32", none, none, none, [7]⟩)]⟩

/-- a world where the destination of "in/a.root" already exists. -/
def wConflict : World :=
  ⟨["out"], ["in/a.root", "in/b.root"],
   [("in/a.root", .ok fileT), ("in/b.root", .ok fileT)],
   [("out/a.hdf5", h5Existing)]⟩

/-- a world whose destination directory does not exist. -/
def wBadDir : World :=
  ⟨[], ["in/a.root"], [("in/a.root", .ok fileT)], []⟩

/-- an output file holding int32 datasets for columns x and y of tree T. -/
def h5TwoCols : H5File :=
  ⟨[("T/x", ⟨"int32", none, none, none, [1]⟩),
    ("T/y", ⟨"int32", none, none, none, [2]⟩)]⟩

/-- a batch that omits resolved column y and carries x with a dtype
that differs from the dataset's. -/
def mismatchBatch : Batch := [("x", ⟨"float64", [9]⟩)]

/-- a world whose first source opens to a handle that fails the
`issubclass(..., HasBranches | ReadOnlyDirectory)` check. -/
def wNoBranches : World :=
  ⟨["out"], ["in/a.root", "in/b.root"],
   [("in/a.root", .ok ⟨false, []⟩), ("in/b.root", .ok fileT)], []⟩

/-! Association-list and string helper lemmas. -/

theorem findKey_isSome_iff {α : Type} (l : List (String × α)) (k : String) :
    (findKey l k).isSome ↔ k ∈ l.map (·.1) := by
  induction l with
  | nil => simp [findKey]
  | cons e rest ih =>
    obtain ⟨k', v⟩ := e
    by_cases hk : k = k' <;> simp [findKey, hk, ih]

theorem findKey_eq_none_iff {α : Type} (l : List (String × α)) (k : String) :
    findKey l k = none ↔ k ∉ l.map (·.1) := by
  rw [← findKey_isSome_iff]
  cases findKey l k <;> simp

theorem findKey_mem {α : Type} {l : List (String × α)} {k : String} {v : α}
    (h : findKey l k = some v) : (k, v) ∈ l := by
  induction l with
  | nil => simp [findKey] at h
  | cons e rest ih =>
    obtain ⟨k', v'⟩ := e
    by_cases hk : k = k'
    · subst hk
      rw [findKey, if_pos rfl] at h
      injection h with h
      subst h
      exact List.mem_cons_self _ _
    · rw [findKey, if_neg hk] at h
      exact List.mem_cons_of_mem _ (ih h)

theorem findKey_of_mem_nodup {α : Type} {l : List (String × α)}
    (hnd : (l.map (·.1)).Nodup) {k : String} {v : α} (hm : (k, v) ∈ l) :
    findKey l k = some v := by
  induction l with
  | nil => simp at hm
  | cons e rest ih =>
    obtain ⟨k', v'⟩ := e
    rw [List.map_cons, List.nodup_cons] at hnd
    rcases List.mem_cons.mp hm with hm1 | hm2
    · obtain ⟨h1, h2⟩ := Prod.mk.injEq .. |>.mp hm1
      subst h1; subst h2
      simp [findKey]
    · have hk : k ≠ k' := by
        rintro rfl
        exact hnd.1 (List.mem_map.mpr ⟨(k, v), hm2, rfl⟩)
      simp only [findKey, if_neg hk]
      exact ih hnd.2 hm2

theorem findKey_append {α : Type} (l₁ l₂ : List (String × α)) (k : String) :
    findKey (l₁ ++ l₂) k =
      match findKey l₁ k with
      | some v => some v
      | none => findKey l₂ k := by
  induction l₁ with
  | nil => simp [findKey]
  | cons e rest ih =>
    obtain ⟨k', v⟩ := e
    by_cases hk : k = k' <;> simp [findKey, hk, ih]

theorem strAppend_cancel_left {s a b : String} (h : s ++ a = s ++ b) : a = b := by
  have hd := congrArg String.data h
  simp [String.data_append] at hd
  exact String.ext hd

theorem findKey_cons {α : Type} (k : String) (v : α) (l : List (String × α)) (q : String) :
    findKey ((k, v) :: l) q = if q = k then some v else findKey l q := rfl

theorem findKey_setEntries {α : Type} (l : List (String × α)) (p q : String) (d : α) :
    findKey (l.map (fun e => if e.1 = p then (p, d) else e)) q =
      if q = p then (findKey l q).map (fun _ => d) else findKey l q := by
  induction l with
  | nil => by_cases hq : q = p <;> simp [findKey, hq]
  | cons e rest ih =>
    obtain ⟨k, v⟩ := e
    rw [List.map_cons]
    by_cases hk : k = p
    · subst hk
      rw [if_pos (show (k, v).1 = k from rfl), findKey_cons, findKey_cons]
      by_cases hq : q = k <;> simp [hq, ih]
    · rw [if_neg (show ¬(k, v).1 = p from hk), findKey_cons, findKey_cons]
      by_cases hq : q = k
      · subst hq
        have hqp : ¬q = p := hk
        simp [hqp]
      · by_cases hqp : q = p
        · subst hqp
          simp [hq, ih]
        · simp [hq, hqp, ih]

/-- reading through a point update of an h5py file: the updated path
reads the new dataset when it existed, every other path is unchanged. -/
theorem get_set (h : H5File) (p q : String) (d : Dataset) :
    (h.set p d).get q = if q = p then (h.get q).map (fun _ => d) else h.get q :=
  findKey_setEntries h.dsets p q d

theorem get_set_isSome (h : H5File) (p q : String) (d : Dataset) :
    ((h.set p d).get q).isSome = ((h.get q).isSome) := by
  rw [get_set]
  by_cases hq : q = p
  · rw [if_pos hq]
    cases h.get q <;> simp
  · rw [if_neg hq]

/-- the resize-then-assign `write` helper is exactly list append on the
dataset's content, all other fields untouched. -/
theorem write_eq (dset : Dataset) (data : NpArray) :
    write dset data = { dset with data := dset.data ++ data.data } := by
  unfold write
  by_cases h : dset.data.length + data.data.length ≤ dset.data.length
  · have h0 : data.data.length = 0 := by omega
    have hnil : data.data = [] := List.eq_nil_of_length_eq_zero h0
    simp [h, hnil]
  · simp only [if_neg h]
    have : (dset.data ++ List.replicate data.data.length (0 : Int)).length
        - data.data.length = dset.data.length := by
      simp
    rw [this]
    have ht : (dset.data ++ List.replicate data.data.length (0 : Int)).take
        dset.data.length = dset.data := by
      simp [List.take_left]
    rw [ht]

theorem process_chunk_cons (branch : String) (data : NpArray) (rest : Batch)
    (outfile : H5File) (tree : String) (options : ProcessOptions) :
    process_chunk ((branch, data) :: rest) outfile tree options =
      match outfile.get (tree ++ "/" ++ branch) with
      | none => (outfile, some (.keyError ("Unable to open object: " ++ tree ++ "/" ++ branch)))
      | some dset =>
        process_chunk rest (outfile.set (tree ++ "/" ++ branch) (write dset data)) tree
          options := rfl

/-- a chunk write never creates or deletes datasets: the domain of the
output file is untouched, on success and on error alike. -/
theorem process_chunk_get_isSome (array : Batch) (tree : String)
    (options : ProcessOptions) (q : String) :
    ∀ outfile : H5File,
      (((process_chunk array outfile tree options).1).get q).isSome
        = ((outfile.get q).isSome) := by
  induction array with
  | nil => intro outfile; rfl
  | cons e rest ih =>
    intro outfile
    obtain ⟨branch, data⟩ := e
    rw [process_chunk_cons]
    cases hg : outfile.get (tree ++ "/" ++ branch) with
    | none => rfl
    | some dset =>
      rw [ih, get_set_isSome]

/-- a chunk write touches no dataset outside the batch's own paths, on
success and on error alike. -/
theorem process_chunk_frame (array : Batch) (tree : String)
    (options : ProcessOptions) (q : String) :
    ∀ outfile : H5File, (∀ p ∈ array, q ≠ tree ++ "/" ++ p.1) →
      ((process_chunk array outfile tree options).1).get q = outfile.get q := by
  induction array with
  | nil => intro outfile _; rfl
  | cons e rest ih =>
    intro outfile hq
    obtain ⟨branch, data⟩ := e
    rw [process_chunk_cons]
    cases hg : outfile.get (tree ++ "/" ++ branch) with
    | none => rfl
    | some dset =>
      rw [ih _ (fun p hp => hq p (List.mem_cons_of_mem _ hp)), get_set,
        if_neg (hq (branch, data) (List.mem_cons_self _ _))]

/-- a chunk whose every column has a matching dataset raises nothing. -/
theorem process_chunk_ok (array : Batch) (tree : String) (options : ProcessOptions) :
    ∀ outfile : H5File, (∀ p ∈ array, ((outfile.get (tree ++ "/" ++ p.1)).isSome)) →
      (process_chunk array outfile tree options).2 = none := by
  induction array with
  | nil => intro outfile _; rfl
  | cons e rest ih =>
    intro outfile hex
    obtain ⟨branch, data⟩ := e
    have h1 := hex (branch, data) (List.mem_cons_self _ _)
    rw [process_chunk_cons]
    cases hg : outfile.get (tree ++ "/" ++ branch) with
    | none => rw [hg] at h1; simp at h1
    | some dset =>
      exact ih _ (fun p hp => by
        rw [get_set_isSome]
        exact hex p (List.mem_cons_of_mem _ hp))

/-- the effect of one chunk write on the dataset of a column the batch
contains: exactly that batch's values for the column are appended. -/
theorem process_chunk_get_found (array : Batch) (tree : String) (options : ProcessOptions) :
    ∀ outfile : H5File, (Batch.keys array).Nodup →
      (∀ p ∈ array, ((outfile.get (tree ++ "/" ++ p.1)).isSome)) →
      ∀ c arr, findKey array c = some arr →
        ((process_chunk array outfile tree options).1).get (tree ++ "/" ++ c)
          = (outfile.get (tree ++ "/" ++ c)).map (fun d => write d arr) := by
  induction array with
  | nil => intro outfile _ _ c arr hc; simp [findKey] at hc
  | cons e rest ih =>
    intro outfile hnd hex c arr hc
    obtain ⟨branch, data⟩ := e
    have h1 := hex (branch, data) (List.mem_cons_self _ _)
    rw [process_chunk_cons]
    cases hg : outfile.get (tree ++ "/" ++ branch) with
    | none => rw [hg] at h1; simp at h1
    | some dset =>
      rw [Batch.keys, List.map_cons, List.nodup_cons] at hnd
      by_cases hcb : c = branch
      · subst hcb
        rw [findKey_cons, if_pos rfl] at hc
        injection hc with hc
        subst hc
        have hnotin : ∀ p ∈ rest, tree ++ "/" ++ c ≠ tree ++ "/" ++ p.1 := by
          intro p hp heq
          have hc1 : c = p.1 := strAppend_cancel_left heq
          exact hnd.1 (hc1 ▸ List.mem_map.mpr ⟨p, hp, rfl⟩)
        rw [process_chunk_frame rest tree options _ _ hnotin, get_set, if_pos rfl, hg]
        rfl
      · rw [findKey_cons, if_neg hcb] at hc
        have hne : tree ++ "/" ++ c ≠ tree ++ "/" ++ branch := by
          intro heq
          exact hcb (strAppend_cancel_left heq)
        rw [ih _ hnd.2
          (fun p hp => by
            rw [get_set_isSome]
            exact hex p (List.mem_cons_of_mem _ hp))
          c arr hc, get_set, if_neg hne]

theorem streamTree_cons (outfile : H5File) (tree : String) (b : Batch)
    (rest : List Batch) (options : ProcessOptions) :
    streamTree outfile tree (b :: rest) options =
      match process_chunk b outfile tree options with
      | (h, none) => streamTree h tree rest options
      | (h, some e) => (h, some e) := rfl

/-- streaming a tree's batches never creates or deletes datasets. -/
theorem streamTree_get_isSome (batches : List Batch) (tree : String)
    (options : ProcessOptions) (q : String) :
    ∀ outfile : H5File,
      (((streamTree outfile tree batches options).1).get q).isSome
        = ((outfile.get q).isSome) := by
  induction batches with
  | nil => intro outfile; rfl
  | cons b rest ih =>
    intro outfile
    rw [streamTree_cons]
    rcases hpc : process_chunk b outfile tree options with ⟨h1, e1⟩
    have hdom : (h1.get q).isSome = (outfile.get q).isSome := by
      have := process_chunk_get_isSome b tree options q outfile
      rw [hpc] at this
      exact this
    cases e1 with
    | none => rw [ih h1, hdom]
    | some e => exact hdom

/-- streaming a tree's batches touches no dataset outside the paths of
the columns its batches contain, on success and on error alike. -/
theorem streamTree_frame (batches : List Batch) (tree : String)
    (options : ProcessOptions) (q : String) :
    ∀ outfile : H5File, (∀ b ∈ batches, ∀ p ∈ b, q ≠ tree ++ "/" ++ p.1) →
      ((streamTree outfile tree batches options).1).get q = outfile.get q := by
  induction batches with
  | nil => intro outfile _; rfl
  | cons b rest ih =>
    intro outfile hq
    rw [streamTree_cons]
    rcases hpc : process_chunk b outfile tree options with ⟨h1, e1⟩
    have hfr : h1.get q = outfile.get q := by
      have := process_chunk_frame b tree options q outfile
        (hq b (List.mem_cons_self _ _))
      rw [hpc] at this
      exact this
    cases e1 with
    | none =>
      rw [ih h1 (fun b' hb' => hq b' (List.mem_cons_of_mem _ hb')), hfr]
    | some e => exact hfr

/-- streaming a tree whose every batch only names columns with matching
datasets raises nothing, and appends, per column, exactly the
concatenation of that column's values across the batches. -/
theorem streamTree_spec (batches : List Batch) (tree : String)
    (options : ProcessOptions) :
    ∀ outfile : H5File, (∀ b ∈ batches, (Batch.keys b).Nodup) →
      (∀ b ∈ batches, ∀ p ∈ b, ((outfile.get (tree ++ "/" ++ p.1)).isSome)) →
      (streamTree outfile tree batches options).2 = none ∧
      ∀ c : String,
        ((streamTree outfile tree batches options).1).get (tree ++ "/" ++ c)
          = (outfile.get (tree ++ "/" ++ c)).map
              (fun d => { d with data := d.data ++ columnConcat batches c }) := by
  induction batches with
  | nil =>
    intro outfile _ _
    refine ⟨rfl, fun c => ?_⟩
    show outfile.get (tree ++ "/" ++ c) = _
    cases outfile.get (tree ++ "/" ++ c) <;> simp [columnConcat]
  | cons b rest ih =>
    intro outfile hnd hex
    rw [streamTree_cons]
    rcases hpc : process_chunk b outfile tree options with ⟨h1, e1⟩
    have hok : e1 = none := by
      have := process_chunk_ok b tree options outfile (hex b (List.mem_cons_self _ _))
      rw [hpc] at this
      exact this
    subst hok
    have hdom : ∀ q : String, (h1.get q).isSome = (outfile.get q).isSome := by
      intro q
      have := process_chunk_get_isSome b tree options q outfile
      rw [hpc] at this
      exact this
    have hex1 : ∀ b' ∈ rest, ∀ p ∈ b', ((h1.get (tree ++ "/" ++ p.1)).isSome) := by
      intro b' hb' p hp
      rw [hdom]
      exact hex b' (List.mem_cons_of_mem _ hb') p hp
    obtain ⟨hok2, hcontent⟩ := ih h1 (fun b' hb' => hnd b' (List.mem_cons_of_mem _ hb')) hex1
    refine ⟨hok2, fun c => ?_⟩
    rw [hcontent c]
    cases hfc : findKey b c with
    | some arr =>
      have hfound : h1.get (tree ++ "/" ++ c)
          = (outfile.get (tree ++ "/" ++ c)).map (fun d => write d arr) := by
        have := process_chunk_get_found b tree options outfile
          (hnd b (List.mem_cons_self _ _)) (hex b (List.mem_cons_self _ _)) c arr hfc
        rw [hpc] at this
        exact this
      rw [hfound]
      cases outfile.get (tree ++ "/" ++ c) with
      | none => rfl
      | some d =>
        simp [write_eq, columnConcat, hfc, List.append_assoc]
    | none =>
      have hnotin : ∀ p ∈ b, tree ++ "/" ++ c ≠ tree ++ "/" ++ p.1 := by
        intro p hp heq
        have hc1 : c = p.1 := strAppend_cancel_left heq
        have : (findKey b c).isSome := by
          rw [findKey_isSome_iff]
          exact hc1 ▸ List.mem_map.mpr ⟨p, hp, rfl⟩
        rw [hfc] at this
        simp at this
      have hfr : h1.get (tree ++ "/" ++ c) = outfile.get (tree ++ "/" ++ c) := by
        have := process_chunk_frame b tree options (tree ++ "/" ++ c) outfile hnotin
        rw [hpc] at this
        exact this
      rw [hfr]
      show _ = (outfile.get (tree ++ "/" ++ c)).map
        (fun d => { d with data := d.data ++ columnConcat (b :: rest) c })
      rw [columnConcat, hfc]
      simp

theorem streamAll_cons (file : RFile) (tree : String) (rest : List String)
    (branches : List (String × List String)) (outfile : H5File)
    (options : ProcessOptions) :
    streamAll file (tree :: rest) branches outfile options =
      match file.get tree with
      | none => (outfile, some (.keyError ("not found: " ++ tree)))
      | some t =>
        match findKey branches tree with
        | none => (outfile, some (.keyError tree))
        | some _cols =>
          match streamTree outfile tree t.batches options with
          | (h, none) => streamAll file rest branches h options
          | (h, some e) => (h, some e) := rfl

theorem mem_probeAllPaths (file : RFile) {trees : List String} {tree : String}
    (ht : tree ∈ trees) {x : String} (hx : x ∈ probePaths file tree) :
    x ∈ probeAllPaths file trees := by
  induction trees with
  | nil => simp at ht
  | cons tr rest ih =>
    rcases List.mem_cons.mp ht with h | h
    · subst h
      exact List.mem_append_left _ hx
    · exact List.mem_append_right _ (ih h)

/-- the streaming pass never creates or deletes datasets. -/
theorem streamAll_get_isSome (file : RFile) (branches : List (String × List String))
    (options : ProcessOptions) (q : String) :
    ∀ (trees : List String) (outfile : H5File),
      (((streamAll file trees branches outfile options).1).get q).isSome
        = ((outfile.get q).isSome) := by
  intro trees
  induction trees with
  | nil => intro outfile; rfl
  | cons tree rest ih =>
    intro outfile
    cases hg : file.get tree with
    | none => simp [streamAll_cons, hg]
    | some t =>
      cases hb : findKey branches tree with
      | none => simp [streamAll_cons, hg, hb]
      | some cols =>
        rcases hst : streamTree outfile tree t.batches options with ⟨h1, e1⟩
        have hdom : (h1.get q).isSome = (outfile.get q).isSome := by
          have := streamTree_get_isSome t.batches tree options q outfile
          rw [hst] at this
          exact this
        cases e1 with
        | none =>
          simp only [streamAll_cons, hg, hb, hst]
          rw [ih h1, hdom]
        | some e =>
          simp only [streamAll_cons, hg, hb, hst]
          exact hdom

/-- the streaming pass touches no dataset outside the paths named by the
streamed trees' batches, on success and on error alike. -/
theorem streamAll_frame (file : RFile) (branches : List (String × List String))
    (options : ProcessOptions) (q : String) :
    ∀ (trees : List String) (outfile : H5File),
      (∀ tree ∈ trees, ∀ t, file.get tree = some t → ∀ b ∈ t.batches, ∀ p ∈ b,
        q ≠ tree ++ "/" ++ p.1) →
      ((streamAll file trees branches outfile options).1).get q = outfile.get q := by
  intro trees
  induction trees with
  | nil => intro outfile _; rfl
  | cons tree rest ih =>
    intro outfile hq
    cases hg : file.get tree with
    | none => simp [streamAll_cons, hg]
    | some t =>
      cases hb : findKey branches tree with
      | none => simp [streamAll_cons, hg, hb]
      | some cols =>
        rcases hst : streamTree outfile tree t.batches options with ⟨h1, e1⟩
        have hfr : h1.get q = outfile.get q := by
          have := streamTree_frame t.batches tree options q outfile
            (hq tree (List.mem_cons_self _ _) t hg)
          rw [hst] at this
          exact this
        cases e1 with
        | none =>
          simp only [streamAll_cons, hg, hb, hst]
          rw [ih h1 (fun tr htr => hq tr (List.mem_cons_of_mem _ htr)), hfr]
        | some e =>
          simp only [streamAll_cons, hg, hb, hst]
          exact hfr

/-- the full streaming pass over a conforming source: no exception, and
every probed column's dataset receives exactly the concatenation of its
values across its tree's batches, in emission order. -/
theorem streamAll_spec (file : RFile) (branches : List (String × List String))
    (options : ProcessOptions) :
    ∀ (trees : List String) (outfile : H5File),
      (∀ tree ∈ trees, (file.get tree).isSome ∧ (findKey branches tree).isSome) →
      (∀ tree ∈ trees, ∀ t, file.get tree = some t →
        ∀ b ∈ t.batches, Batch.keys b = probeKeys t) →
      (∀ tree ∈ trees, ∀ t, file.get tree = some t → (probeKeys t).Nodup) →
      (∀ tree ∈ trees, ∀ t, file.get tree = some t →
        ∀ c ∈ probeKeys t, ((outfile.get (tree ++ "/" ++ c)).isSome)) →
      (probeAllPaths file trees).Nodup →
      (streamAll file trees branches outfile options).2 = none ∧
      ∀ tree ∈ trees, ∀ t, file.get tree = some t → ∀ c ∈ probeKeys t,
        ((streamAll file trees branches outfile options).1).get (tree ++ "/" ++ c)
          = (outfile.get (tree ++ "/" ++ c)).map
              (fun d => { d with data := d.data ++ columnConcat t.batches c }) := by
  intro trees
  induction trees with
  | nil =>
    intro outfile _ _ _ _ _
    exact ⟨rfl, fun tree htr => by simp at htr⟩
  | cons tree rest ih =>
    intro outfile hget hconf hnodup hex hdisj
    obtain ⟨hgs, hbs⟩ := hget tree (List.mem_cons_self _ _)
    obtain ⟨t, hg⟩ := Option.isSome_iff_exists.mp hgs
    obtain ⟨cols, hb⟩ := Option.isSome_iff_exists.mp hbs
    rw [probeAllPaths, probePaths, hg, List.nodup_append] at hdisj
    obtain ⟨hnd1, hnd2, hdj⟩ := hdisj
    have hndK : (probeKeys t).Nodup := hnodup tree (List.mem_cons_self _ _) t hg
    have hndb : ∀ b ∈ t.batches, (Batch.keys b).Nodup := fun b hbb =>
      (hconf tree (List.mem_cons_self _ _) t hg b hbb) ▸ hndK
    have hexT : ∀ b ∈ t.batches, ∀ p ∈ b, ((outfile.get (tree ++ "/" ++ p.1)).isSome) := by
      intro b hbb p hp
      have hkey : p.1 ∈ probeKeys t := by
        rw [← hconf tree (List.mem_cons_self _ _) t hg b hbb]
        exact List.mem_map.mpr ⟨p, hp, rfl⟩
      exact hex tree (List.mem_cons_self _ _) t hg p.1 hkey
    obtain ⟨he1, hc1⟩ := streamTree_spec t.batches tree options outfile hndb hexT
    rcases hst : streamTree outfile tree t.batches options with ⟨h1, e1⟩
    rw [hst] at he1 hc1
    dsimp only at he1 hc1
    subst he1
    have hdom : ∀ q : String, (h1.get q).isSome = (outfile.get q).isSome := by
      intro q
      have := streamTree_get_isSome t.batches tree options q outfile
      rw [hst] at this
      exact this
    have hrw : streamAll file (tree :: rest) branches outfile options
        = streamAll file rest branches h1 options := by
      simp only [streamAll_cons, hg, hb, hst]
    obtain ⟨heR, hcR⟩ := ih h1
      (fun tr htr => hget tr (List.mem_cons_of_mem _ htr))
      (fun tr htr => hconf tr (List.mem_cons_of_mem _ htr))
      (fun tr htr => hnodup tr (List.mem_cons_of_mem _ htr))
      (fun tr htr t' hg' c hc => by
        rw [hdom]
        exact hex tr (List.mem_cons_of_mem _ htr) t' hg' c hc)
      hnd2
    refine ⟨by rw [hrw]; exact heR, ?_⟩
    intro tr htr t' hg' c hc
    rw [hrw]
    rcases List.mem_cons.mp htr with hcase | hcase
    · subst hcase
      rw [hg] at hg'
      injection hg' with hg'
      subst hg'
      have hqmem : tr ++ "/" ++ c ∈ (probeKeys t).map (fun x => tr ++ "/" ++ x) :=
        List.mem_map.mpr ⟨c, hc, rfl⟩
      have hfr : ((streamAll file rest branches h1 options).1).get (tr ++ "/" ++ c)
          = h1.get (tr ++ "/" ++ c) := by
        apply streamAll_frame
        intro tr' htr' t'' hg'' b hbb p hp heq
        have hkey : p.1 ∈ probeKeys t'' := by
          rw [← hconf tr' (List.mem_cons_of_mem _ htr') t'' hg'' b hbb]
          exact List.mem_map.mpr ⟨p, hp, rfl⟩
        have hmem2 : tr' ++ "/" ++ p.1 ∈ probeAllPaths file rest := by
          apply mem_probeAllPaths file htr'
          rw [probePaths, hg'']
          exact List.mem_map.mpr ⟨p.1, hkey, rfl⟩
        rw [← heq] at hmem2
        exact hdj hqmem hmem2
      rw [hfr]
      exact hc1 c
    · have hfr1 : h1.get (tr ++ "/" ++ c) = outfile.get (tr ++ "/" ++ c) := by
        have hframe := streamTree_frame t.batches tree options (tr ++ "/" ++ c) outfile ?_
        · rw [hst] at hframe
          exact hframe
        · intro b hbb p hp heq
          have hkey : p.1 ∈ probeKeys t := by
            rw [← hconf tree (List.mem_cons_self _ _) t hg b hbb]
            exact List.mem_map.mpr ⟨p, hp, rfl⟩
          have hmem1 : tree ++ "/" ++ p.1 ∈ (probeKeys t).map (fun x => tree ++ "/" ++ x) :=
            List.mem_map.mpr ⟨p.1, hkey, rfl⟩
          have hmem2 : tr ++ "/" ++ c ∈ probeAllPaths file rest := by
            apply mem_probeAllPaths file hcase
            rw [probePaths, hg']
            exact List.mem_map.mpr ⟨c, hc, rfl⟩
          rw [heq] at hmem2
          exact hdj hmem1 hmem2
      rw [hcR tr hcase t' hg' c hc, hfr1]

theorem createDatasets_cons (tree a : String) (arr : NpArray) (rest : Batch)
    (options : ProcessOptions) (acc : List (String × Dataset)) :
    createDatasets tree ((a, arr) :: rest) options acc =
      if (findKey acc (tree ++ "/" ++ a)).isSome then
        (acc, some (.valueError
          ("Unable to create dataset, name already exists: " ++ tree ++ "/" ++ a)))
      else
        createDatasets tree rest options
          (acc ++ [(tree ++ "/" ++ a,
            ⟨arr.dtype, none, options.compression, options.compression_level, []⟩)]) := rfl

theorem expectedTreeDsets_keys (tree : String) (b0 : Batch) (options : ProcessOptions) :
    (expectedTreeDsets tree b0 options).map (·.1)
      = (Batch.keys b0).map (fun a => tree ++ "/" ++ a) := by
  simp [expectedTreeDsets, Batch.keys, List.map_map]

/-- the probe-batch `create_dataset` loop succeeds when its paths are
fresh, and appends exactly one empty typed dataset per probe column. -/
theorem createDatasets_ok (tree : String) (options : ProcessOptions) :
    ∀ (b0 : Batch) (acc : List (String × Dataset)),
      ((acc.map (·.1)) ++ (Batch.keys b0).map (fun a => tree ++ "/" ++ a)).Nodup →
      createDatasets tree b0 options acc
        = (acc ++ expectedTreeDsets tree b0 options, none) := by
  intro b0
  induction b0 with
  | nil => intro acc _; simp [createDatasets, expectedTreeDsets]
  | cons e rest ih =>
    intro acc hnd
    obtain ⟨a, arr⟩ := e
    rw [Batch.keys, List.map_cons, List.map_cons] at hnd
    have hdisj := (List.nodup_append.mp hnd).2.2
    have hpath : findKey acc (tree ++ "/" ++ a) = none := by
      rw [findKey_eq_none_iff]
      intro hmem
      exact hdisj hmem (List.mem_cons_self _ _)
    rw [createDatasets_cons, hpath]
    simp only [Option.isSome_none, Bool.false_eq_true, if_false]
    have hnd' : (((acc ++ [(tree ++ "/" ++ a,
        (⟨arr.dtype, none, options.compression, options.compression_level, []⟩ : Dataset))]).map (·.1))
        ++ (Batch.keys rest).map (fun x => tree ++ "/" ++ x)).Nodup := by
      rw [List.map_append, List.append_assoc]
      simpa [Batch.keys] using hnd
    rw [ih _ hnd']
    simp [expectedTreeDsets, probeDataset, List.append_assoc]

theorem setupTrees_cons (file : RFile) (tree : String) (rest : List String)
    (branches : List (String × List String)) (options : ProcessOptions)
    (acc : List (String × Dataset)) :
    setupTrees file (tree :: rest) branches options acc =
      match file.get tree with
      | none => (acc, some (.keyError ("not found: " ++ tree)))
      | some t =>
        match findKey branches tree with
        | none => (acc, some (.keyError tree))
        | some _cols =>
          match t.batches with
          | [] => setupTrees file rest branches options acc
          | b0 :: _ =>
            match createDatasets tree b0 options acc with
            | (acc', none) => setupTrees file rest branches options acc'
            | (acc', some e) => (acc', some e) := rfl

theorem expectedDsets_cons (file : RFile) (options : ProcessOptions)
    (tree : String) (rest : List String) :
    expectedDsets file options (tree :: rest) =
      (match file.get tree with
       | none => []
       | some t =>
         match t.batches with
         | [] => []
         | b0 :: _ => expectedTreeDsets tree b0 options) ++ expectedDsets file options rest := rfl

theorem expectedDsets_keys (file : RFile) (options : ProcessOptions) :
    ∀ trees : List String,
      (expectedDsets file options trees).map (·.1) = probeAllPaths file trees := by
  intro trees
  induction trees with
  | nil => rfl
  | cons tree rest ih =>
    rw [expectedDsets_cons, probeAllPaths, List.map_append, ih]
    congr 1
    cases hg : file.get tree with
    | none => simp [probePaths, hg]
    | some t =>
      cases hbt : t.batches with
      | nil => simp [probePaths, hg, probeKeys, hbt]
      | cons b0 bs => simp [probePaths, hg, probeKeys, hbt, expectedTreeDsets_keys]

/-- the probe pass over all trees succeeds when every tree and its
branch entry resolve and the created paths are collision-free, and
creates exactly the expected datasets, in order. -/
theorem setupTrees_ok (file : RFile) (branches : List (String × List String))
    (options : ProcessOptions) :
    ∀ (trees : List String) (acc : List (String × Dataset)),
      (∀ tree ∈ trees, (file.get tree).isSome ∧ (findKey branches tree).isSome) →
      ((acc.map (·.1)) ++ probeAllPaths file trees).Nodup →
      setupTrees file trees branches options acc
        = (acc ++ expectedDsets file options trees, none) := by
  intro trees
  induction trees with
  | nil => intro acc _ _; simp [setupTrees, expectedDsets]
  | cons tree rest ih =>
    intro acc hget hnd
    obtain ⟨hgs, hbs⟩ := hget tree (List.mem_cons_self _ _)
    obtain ⟨t, hg⟩ := Option.isSome_iff_exists.mp hgs
    obtain ⟨cols, hb⟩ := Option.isSome_iff_exists.mp hbs
    rw [probeAllPaths] at hnd
    cases hbt : t.batches with
    | nil =>
      have hpp : probePaths file tree = [] := by
        simp [probePaths, hg, probeKeys, hbt]
      rw [hpp] at hnd
      simp only [setupTrees_cons, hg, hb, hbt]
      rw [ih acc (fun tr htr => hget tr (List.mem_cons_of_mem _ htr)) (by simpa using hnd)]
      simp [expectedDsets_cons, hg, hbt]
    | cons b0 bs =>
      have hpp : probePaths file tree = (Batch.keys b0).map (fun a => tree ++ "/" ++ a) := by
        simp [probePaths, hg, probeKeys, hbt]
      rw [hpp] at hnd
      have hnd1 : ((acc.map (·.1))
          ++ (Batch.keys b0).map (fun a => tree ++ "/" ++ a)).Nodup := by
        rw [← List.append_assoc] at hnd
        exact List.Nodup.of_append_left hnd
      have hnd2 : (((acc ++ expectedTreeDsets tree b0 options).map (·.1))
          ++ probeAllPaths file rest).Nodup := by
        rw [List.map_append, expectedTreeDsets_keys, List.append_assoc]
        exact hnd
      simp only [setupTrees_cons, hg, hb, hbt,
        createDatasets_ok tree options b0 acc hnd1]
      rw [ih _ (fun tr htr => hget tr (List.mem_cons_of_mem _ htr)) hnd2]
      simp [expectedDsets_cons, hg, hbt, List.append_assoc]

/-- `setup_outfile` on a fresh destination over resolvable trees with
collision-free paths: creates the destination file containing exactly
the expected datasets and returns it. -/
theorem setup_outfile_ok (fs : List (String × H5File)) (outfilename : String)
    (file : RFile) (trees : List String) (branches : List (String × List String))
    (options : ProcessOptions)
    (hnc : findKey fs outfilename = none)
    (hget : ∀ tree ∈ trees, (file.get tree).isSome ∧ (findKey branches tree).isSome)
    (hnd : (probeAllPaths file trees).Nodup) :
    setup_outfile fs outfilename file trees branches options
      = ((outfilename, ⟨expectedDsets file options trees⟩) :: fs,
         .ok ⟨expectedDsets file options trees⟩) := by
  unfold setup_outfile
  rw [hnc]
  simp only [Option.isSome_none, Bool.false_eq_true, if_false]
  rw [setupTrees_ok file branches options trees [] hget (by simpa using hnd)]
  simp

theorem mem_expectedDsets (file : RFile) (options : ProcessOptions) :
    ∀ {trees : List String} {tree : String}, tree ∈ trees →
      ∀ {t : RTree}, file.get tree = some t →
      ∀ {b0 : Batch} {bs : List Batch}, t.batches = b0 :: bs →
      ∀ {c : String} {arr : NpArray}, (c, arr) ∈ b0 →
      (tree ++ "/" ++ c, probeDataset arr options) ∈ expectedDsets file options trees := by
  intro trees
  induction trees with
  | nil => intro tree ht; simp at ht
  | cons tr rest ih =>
    intro tree ht t hg b0 bs hbt c arr hm
    rcases List.mem_cons.mp ht with h | h
    · subst h
      simp only [expectedDsets_cons, hg, hbt]
      apply List.mem_append_left
      exact List.mem_map.mpr ⟨(c, arr), hm, rfl⟩
    · rw [expectedDsets_cons]
      exact List.mem_append_right _ (ih h hg hbt hm)

/-- reading a probed column's dataset right after `setup_outfile`. -/
theorem expectedDsets_get (file : RFile) (options : ProcessOptions)
    {trees : List String} {tree : String} (ht : tree ∈ trees)
    {t : RTree} (hg : file.get tree = some t)
    {b0 : Batch} {bs : List Batch} (hbt : t.batches = b0 :: bs)
    {c : String} {arr : NpArray} (hfc : findKey b0 c = some arr)
    (hnd : (probeAllPaths file trees).Nodup) :
    findKey (expectedDsets file options trees) (tree ++ "/" ++ c)
      = some (probeDataset arr options) := by
  apply findKey_of_mem_nodup
  · rw [expectedDsets_keys]
    exact hnd
  · exact mem_expectedDsets file options ht hg hbt (findKey_mem hfc)

theorem fsSet_cons_self (p : String) (h v : H5File) (rest : List (String × H5File)) :
    fsSet ((p, v) :: rest) p h = (p, h) :: fsSet rest p h := by
  simp [fsSet]

theorem fsSet_of_absent (p : String) (h : H5File) :
    ∀ fs : List (String × H5File), findKey fs p = none → fsSet fs p h = fs := by
  intro fs
  induction fs with
  | nil => intro _; rfl
  | cons e rest ih =>
    intro hnone
    obtain ⟨k, v⟩ := e
    rw [findKey_cons] at hnone
    by_cases hk : p = k
    · rw [if_pos hk] at hnone
      exact absurd hnone (by simp)
    · rw [if_neg hk] at hnone
      have htail := ih hnone
      simp only [fsSet, List.map_cons] at htail ⊢
      rw [if_neg (show ¬(k, v).1 = p from fun hh => hk hh.symm), htail]

theorem check_infiles_cons (w : World) (q : String) (rest : List String) :
    check_infiles w (q :: rest) =
      if q ∈ w.srcFiles ∧ Path.suffix q = ".root" then check_infiles w rest
      else .error (.runtimeError (q ++ " is not a root file.")) := rfl

theorem check_infiles_error (w : World) :
    ∀ infiles : List String,
      (∃ p ∈ infiles, ¬(p ∈ w.srcFiles ∧ Path.suffix p = ".root")) →
      ∃ m, check_infiles w infiles = .error (.runtimeError m) := by
  intro infiles
  induction infiles with
  | nil =>
    rintro ⟨p, hp, _⟩
    simp at hp
  | cons q rest ih =>
    rintro ⟨p, hp, hbad⟩
    by_cases hq : q ∈ w.srcFiles ∧ Path.suffix q = ".root"
    · rw [check_infiles_cons, if_pos hq]
      apply ih
      rcases List.mem_cons.mp hp with h | h
      · subst h
        exact absurd hq hbad
      · exact ⟨p, h, hbad⟩
    · exact ⟨_, by rw [check_infiles_cons, if_neg hq]⟩

theorem enumBranches_ok (file : RFile) :
    ∀ trees : List String, (∀ tr ∈ trees, (file.get tr).isSome) →
      enumBranches file trees
        = .ok (trees.map (fun tr => (tr, branchNamesD file tr))) := by
  intro trees
  induction trees with
  | nil => intro _; rfl
  | cons tr rest ih =>
    intro hget
    obtain ⟨t, hg⟩ := Option.isSome_iff_exists.mp (hget tr (List.mem_cons_self _ _))
    simp only [enumBranches, hg, ih (fun x hx => hget x (List.mem_cons_of_mem _ hx))]
    simp [branchNamesD, hg]

theorem findKey_map_self {β : Type} (f : String → β) :
    ∀ (trees : List String) (tr : String), tr ∈ trees →
      findKey (trees.map (fun x => (x, f x))) tr = some (f tr) := by
  intro trees
  induction trees with
  | nil => intro tr h; simp at h
  | cons x rest ih =>
    intro tr htr
    rw [List.map_cons, findKey_cons]
    by_cases hx : tr = x
    · subst hx
      simp
    · rw [if_neg hx]
      rcases List.mem_cons.mp htr with h | h
      · exact absurd h hx
      · exact ih tr h

theorem setup_outfile_conflict (fs : List (String × H5File)) (outfilename : String)
    (file : RFile) (trees : List String) (branches : List (String × List String))
    (options : ProcessOptions) {h0 : H5File}
    (hex : findKey fs outfilename = some h0) :
    setup_outfile fs outfilename file trees branches options
      = (fs, .error (.fileExists
          ("File " ++ outfilename ++ " already exists. Please delete."))) := by
  unfold setup_outfile
  rw [hex]
  rfl

theorem process_file_openError (w : World) (infile outdir : String)
    (branches : List (String × List String)) (trees : List String)
    (options : ProcessOptions) {e : PyErr}
    (hopen : openSource w infile = .error e) :
    process_file w infile outdir branches trees options = (w, trees, some e) := by
  simp only [process_file, hopen]

theorem process_file_typeError (w : World) (infile outdir : String)
    (branches : List (String × List String)) (trees : List String)
    (options : ProcessOptions) {file : RFile}
    (hopen : openSource w infile = .ok file) (hhb : file.hasBranches = false) :
    process_file w infile outdir branches trees options
      = (w, trees, some (.typeError
          "Expected up.open to return TTree, did you provide the right tree name?")) := by
  simp only [process_file, hopen, hhb, Bool.not_false, if_true]

theorem process_file_eq (w : World) (infile outdir : String)
    (branches : List (String × List String)) (trees : List String)
    (options : ProcessOptions) {file : RFile}
    (hopen : openSource w infile = .ok file)
    (hhb : file.hasBranches = true) :
    process_file w infile outdir branches trees options =
      (match resolveBranchesIfEmpty file (resolveTrees trees) branches with
       | .error e => (w, resolveTrees trees, some e)
       | .ok branches1 =>
         match setup_outfile w.fs (outName outdir infile) file (resolveTrees trees)
             branches1 options with
         | (fs', .error e) => ({ w with fs := fs' }, resolveTrees trees, some e)
         | (fs', .ok outfile) =>
           match streamAll file (resolveTrees trees) branches1 outfile options with
           | (h, err) => ({ w with fs := fsSet fs' (outName outdir infile) h },
               resolveTrees trees, err)) := by
  simp only [process_file, hopen, hhb, Bool.not_true, Bool.false_eq_true, if_false]

theorem process_file_trees (w : World) (infile outdir : String)
    (branches : List (String × List String)) (trees : List String)
    (options : ProcessOptions) {file : RFile}
    (hopen : openSource w infile = .ok file)
    (hhb : file.hasBranches = true) :
    (process_file w infile outdir branches trees options).2.1 = resolveTrees trees := by
  rw [process_file_eq w infile outdir branches trees options hopen hhb]
  cases hres : resolveBranchesIfEmpty file (resolveTrees trees) branches with
  | error e => rfl
  | ok branches1 =>
    rcases hsu : setup_outfile w.fs (outName outdir infile) file (resolveTrees trees)
        branches1 options with ⟨fs', r⟩
    cases r with
    | error e => simp [hsu]
    | ok outfile =>
      rcases hstr : streamAll file (resolveTrees trees) branches1 outfile options
        with ⟨h, err⟩
      simp [hsu, hstr]

theorem mainLoop_cons (w : World) (f : String) (rest : List String)
    (outfolder : String) (trees : List String) (options : ProcessOptions) :
    mainLoop w (f :: rest) outfolder trees options =
      match process_file w f outfolder [] trees options with
      | (w', trees', none) =>
        ⟨(mainLoop w' rest outfolder trees' options).world,
         (mainLoop w' rest outfolder trees' options).trees,
         (f, none) :: (mainLoop w' rest outfolder trees' options).outcomes,
         (mainLoop w' rest outfolder trees' options).fatal⟩
      | (w', trees', some e) =>
        if e.isOSError then
          ⟨(mainLoop w' rest outfolder trees' options).world,
           (mainLoop w' rest outfolder trees' options).trees,
           (f, some e) :: (mainLoop w' rest outfolder trees' options).outcomes,
           (mainLoop w' rest outfolder trees' options).fatal⟩
        else ⟨w', trees', [(f, some e)], some e⟩ := rfl

theorem columnConcat_length (c : String) :
    ∀ batches : List Batch,
      (∀ b ∈ batches, (findKey b c).isSome) →
      (∀ b ∈ batches, ∀ p ∈ b, p.2.data.length = batchRows b) →
      (columnConcat batches c).length = (batches.map batchRows).sum := by
  intro batches
  induction batches with
  | nil => intro _ _; rfl
  | cons b rest ih =>
    intro hsome hrect
    rw [columnConcat]
    cases hfc : findKey b c with
    | none =>
      have := hsome b (List.mem_cons_self _ _)
      rw [hfc] at this
      simp at this
    | some arr =>
      rw [List.map_cons, List.sum_cons, List.length_append,
        ih (fun b' hb' => hsome b' (List.mem_cons_of_mem _ hb'))
           (fun b' hb' => hrect b' (List.mem_cons_of_mem _ hb'))]
      congr 1
      exact hrect b (List.mem_cons_self _ _) (c, arr) (findKey_mem hfc)

theorem process_chunk_missing_error (tree : String) (options : ProcessOptions) :
    ∀ (array : Batch) (outfile : H5File),
      (∃ p ∈ array, outfile.get (tree ++ "/" ++ p.1) = none) →
      ∃ m, (process_chunk array outfile tree options).2 = some (.keyError m) := by
  intro array
  induction array with
  | nil =>
    rintro outfile ⟨p, hp, _⟩
    simp at hp
  | cons e rest ih =>
    rintro outfile ⟨p, hp, hnone⟩
    obtain ⟨branch, data⟩ := e
    cases hg : outfile.get (tree ++ "/" ++ branch) with
    | none =>
      refine ⟨"Unable to open object: " ++ tree ++ "/" ++ branch, ?_⟩
      simp only [process_chunk_cons, hg]
    | some dset =>
      rcases List.mem_cons.mp hp with h | h
      · subst h
        dsimp only at hnone
        rw [hnone] at hg
        exact Option.noConfusion hg
      · simp only [process_chunk_cons, hg]
        apply ih
        refine ⟨p, h, ?_⟩
        rw [get_set]
        by_cases hq : tree ++ "/" ++ p.1 = tree ++ "/" ++ branch
        · rw [if_pos hq, hnone]
          rfl
        · rw [if_neg hq]
          exact hnone

/-- C3: a single append (`write`) grows the dataset's row count by exactly
the batch's length, writes the batch's values into exactly the newly grown
tail slice, leaves every pre-existing row unchanged, and never truncates
or edits any other field of the dataset. -/
theorem claim_C3_append_effect (dset : Dataset) (data : NpArray) :
    (write dset data).data.length = dset.data.length + data.data.length ∧
    (write dset data).data.take dset.data.length = dset.data ∧
    (write dset data).data.drop dset.data.length = data.data ∧
    (write dset data).dtype = dset.dtype ∧
    (write dset data).maxshape = dset.maxshape ∧
    (write dset data).compression = dset.compression ∧
    (write dset data).compression_opts = dset.compression_opts := by
  rw [write_eq]
  refine ⟨by simp, ?_, ?_, rfl, rfl, rfl, rfl⟩
  · simp [List.take_left]
  · simp [List.drop_left]

/-- C6: pre-flight validation runs before any file is processed — a missing
or non-directory destination, or any source path that is not an existing
regular ".root" file, aborts the whole run with a configuration error
(NotADirectoryError or RuntimeError) before any per-file outcome exists. -/
theorem claim_C6_preflight (w : World) (infiles : List String) (outfolder : String)
    (trees : List String) (options : ProcessOptions)
    (hbad : outfolder ∉ w.dirs ∨
      ∃ p ∈ infiles, ¬(p ∈ w.srcFiles ∧ Path.suffix p = ".root")) :
    ∃ e, runMain w infiles outfolder trees options = ⟨w, trees, [], some e⟩ ∧
      ((∃ m, e = .notADirectory m) ∨ (∃ m, e = .runtimeError m)) := by
  rcases hbad with hdir | hfile
  · refine ⟨.notADirectory ("Supplied path " ++ outfolder ++ " is not a directory."),
      ?_, .inl ⟨_, rfl⟩⟩
    have hco : check_outdir w outfolder = .error
        (.notADirectory ("Supplied path " ++ outfolder ++ " is not a directory.")) := by
      unfold check_outdir
      rw [if_neg hdir]
    simp only [runMain, hco]
  · by_cases hdir : outfolder ∈ w.dirs
    · obtain ⟨m, hm⟩ := check_infiles_error w infiles hfile
      refine ⟨.runtimeError m, ?_, .inr ⟨m, rfl⟩⟩
      have hco : check_outdir w outfolder = .ok () := by
        unfold check_outdir
        rw [if_pos hdir]
      simp only [runMain, hco, hm]
    · refine ⟨.notADirectory ("Supplied path " ++ outfolder ++ " is not a directory."),
        ?_, .inl ⟨_, rfl⟩⟩
      have hco : check_outdir w outfolder = .error
          (.notADirectory ("Supplied path " ++ outfolder ++ " is not a directory.")) := by
        unfold check_outdir
        rw [if_neg hdir]
      simp only [runMain, hco]

/-- C6 witness: a world without the destination directory fails at once
with a configuration error and an empty outcome list. -/
theorem claim_C6_witness :
    ("out" ∉ wBadDir.dirs ∨
      ∃ p ∈ ["in/a.root"], ¬(p ∈ wBadDir.srcFiles ∧ Path.suffix p = ".root")) ∧
    ∃ e, runMain wBadDir ["in/a.root"] "out" [] exOptions = ⟨wBadDir, [], [], some e⟩ ∧
      ((∃ m, e = .notADirectory m) ∨ (∃ m, e = .runtimeError m)) :=
  ⟨.inl (by decide),
   claim_C6_preflight wBadDir ["in/a.root"] "out" [] exOptions (.inl (by decide))⟩

/-- C7: with no tree names supplied the file root "/" becomes the sole
tree; a non-empty trees or branches argument is kept as supplied; with no
branch dict supplied, every tree adopts the full branch list the source
collaborator reports, in reported order, one entry per tree. -/
theorem claim_C7_default_resolution (file : RFile) (trees : List String)
    (branches : List (String × List String))
    (hne : trees ≠ []) (hbne : branches ≠ [])
    (hget : ∀ tr ∈ trees, (file.get tr).isSome) :
    resolveTrees [] = ["/"] ∧
    resolveTrees trees = trees ∧
    resolveBranchesIfEmpty file trees branches = .ok branches ∧
    resolveBranchesIfEmpty file trees []
      = .ok (trees.map (fun tr => (tr, branchNamesD file tr))) ∧
    (∀ tr ∈ trees, findKey (trees.map (fun tr2 => (tr2, branchNamesD file tr2))) tr
        = some (branchNamesD file tr)) ∧
    (∀ tr t, file.get tr = some t → branchNamesD file tr = t.branchNames) := by
  refine ⟨rfl, ?_, ?_, ?_, ?_, ?_⟩
  · unfold resolveTrees
    rw [if_neg (by simpa using hne)]
  · unfold resolveBranchesIfEmpty
    rw [if_neg (by simpa using hbne)]
  · unfold resolveBranchesIfEmpty
    simp only [List.length_nil, eq_self_iff_true, if_true]
    exact enumBranches_ok file trees hget
  · intro tr htr
    exact findKey_map_self (fun tr2 => branchNamesD file tr2) trees tr htr
  · intro tr t hg
    unfold branchNamesD
    rw [hg]

/-- C7 witness: checks the default resolution on a concrete source whose
columns hang off the root: the sole resolved tree is "/" and its column
list is the collaborator's reported list. -/
theorem claim_C7_witness :
    resolveTrees [] = ["/"] ∧
    resolveTrees ["/"] = ["/"] ∧
    resolveBranchesIfEmpty fileRoot ["/"] [("/", ["x"])] = .ok [("/", ["x"])] ∧
    resolveBranchesIfEmpty fileRoot ["/"] []
      = .ok (["/"].map (fun tr => (tr, branchNamesD fileRoot tr))) ∧
    (∀ tr ∈ ["/"], findKey (["/"].map (fun tr2 => (tr2, branchNamesD fileRoot tr2))) tr
        = some (branchNamesD fileRoot tr)) ∧
    (∀ tr t, fileRoot.get tr = some t → branchNamesD fileRoot tr = t.branchNames) :=
  claim_C7_default_resolution fileRoot ["/"] [("/", ["x"])]
    (by decide) (by decide) (by decide)

/-- C8 counterexample: a tree that yields zero batches does not raise
during `setup_outfile` — the probe loop is silently skipped and the call
returns a destination file containing no dataset at all, contradicting
the claim that an empty group fails schema probing with a SchemaError. -/
theorem claim_C8_counterexample :
    setup_outfile [] "out/e.hdf5" fileE ["E"] [("E", ["x"])] exOptions
      = ([("out/e.hdf5", ⟨[]⟩)], .ok ⟨[]⟩) := rfl

/-- C8 amended: a tree that yields zero batches is silently skipped by the
probe pass: `setup_outfile` succeeds, raises nothing, and creates no
dataset for that tree (rather than raising a SchemaError). -/
theorem claim_C8_empty_group_silent (fs : List (String × H5File))
    (outfilename : String) (file : RFile) (tree : String)
    (branches : List (String × List String)) (options : ProcessOptions) {t : RTree}
    (hnc : findKey fs outfilename = none)
    (hg : file.get tree = some t)
    (hb : (findKey branches tree).isSome)
    (hempty : t.batches = []) :
    setup_outfile fs outfilename file [tree] branches options
      = ((outfilename, ⟨[]⟩) :: fs, .ok ⟨[]⟩) := by
  have hget : ∀ tr ∈ [tree], (file.get tr).isSome ∧ (findKey branches tr).isSome := by
    intro tr htr
    rcases List.mem_cons.mp htr with h | h
    · subst h
      exact ⟨by rw [hg]; rfl, hb⟩
    · simp at h
  have hnd : (probeAllPaths file [tree]).Nodup := by
    simp [probeAllPaths, probePaths, hg, probeKeys, hempty]
  have hexp : expectedDsets file options [tree] = [] := by
    simp [expectedDsets_cons, hg, hempty, expectedDsets]
  have := setup_outfile_ok fs outfilename file [tree] branches options hnc hget hnd
  rw [hexp] at this
  exact this

/-- C8 amended witness: the concrete empty tree "E". -/
theorem claim_C8_witness :
    findKey ([] : List (String × H5File)) "out/e.hdf5" = none ∧
    fileE.get "E" = some emptyTree ∧
    (findKey [("E", ["x"])] "E").isSome ∧
    emptyTree.batches = [] ∧
    setup_outfile [] "out/e.hdf5" fileE ["E"] [("E", ["x"])] exOptions
      = ([("out/e.hdf5", ⟨[]⟩)], .ok ⟨[]⟩) :=
  ⟨rfl, rfl, rfl, rfl,
   claim_C8_empty_group_silent [] "out/e.hdf5" fileE "E" [("E", ["x"])] exOptions
     rfl rfl rfl rfl⟩

/-- C9 counterexample: a batch that omits resolved column y and whose x
array carries dtype float64 against an int32 dataset is written without
any error: no WriteMismatchError exists in the code, the mismatched x
values are appended and y is silently skipped, contradicting the claim
that such a batch raises and halts. -/
theorem claim_C9_counterexample :
    process_chunk mismatchBatch h5TwoCols "T" exOptions
      = (⟨[("T/x", ⟨"int32", none, none, none, [1, 9]⟩),
           ("T/y", ⟨"int32", none, none, none, [2]⟩)]⟩, none) := rfl

/-- C9 amended: the actual mismatch behavior of `process_chunk`: a batch
column with no matching dataset raises a KeyError (halting the remaining
writes of that chunk); a batch that omits a resolved column leaves that
column's dataset untouched and raises nothing; a batch whose every column
has a matching dataset is written without any dtype check or error. -/
theorem claim_C9_mismatch_behavior (array : Batch) (outfile : H5File)
    (tree : String) (options : ProcessOptions) :
    ((∃ p ∈ array, outfile.get (tree ++ "/" ++ p.1) = none) →
      ∃ m, (process_chunk array outfile tree options).2 = some (.keyError m)) ∧
    (∀ c : String, c ∉ Batch.keys array →
      ((process_chunk array outfile tree options).1).get (tree ++ "/" ++ c)
        = outfile.get (tree ++ "/" ++ c)) ∧
    ((∀ p ∈ array, ((outfile.get (tree ++ "/" ++ p.1)).isSome)) →
      (process_chunk array outfile tree options).2 = none) := by
  refine ⟨process_chunk_missing_error tree options array outfile, ?_,
    process_chunk_ok array tree options outfile⟩
  intro c hc
  apply process_chunk_frame
  intro p hp heq
  apply hc
  rw [strAppend_cancel_left heq]
  exact List.mem_map.mpr ⟨p, hp, rfl⟩

/-- C9 amended witness: on concrete inputs, an extra column raises a
KeyError, an omitted column is silently left untouched, and a conforming
batch (regardless of dtype) raises nothing. -/
theorem claim_C9_witness :
    (∃ m, (process_chunk [("z", ⟨"int32", [1]⟩)] h5TwoCols "T" exOptions).2
        = some (.keyError m)) ∧
    ((process_chunk mismatchBatch h5TwoCols "T" exOptions).1).get ("T" ++ "/" ++ "y")
        = h5TwoCols.get ("T" ++ "/" ++ "y") ∧
    (process_chunk [("x", ⟨"int32", [3]⟩), ("y", ⟨"int32", [4]⟩)] h5TwoCols "T"
        exOptions).2 = none :=
  ⟨(claim_C9_mismatch_behavior [("z", ⟨"int32", [1]⟩)] h5TwoCols "T" exOptions).1
      ⟨("z", ⟨"int32", [1]⟩), by decide, rfl⟩,
   (claim_C9_mismatch_behavior mismatchBatch h5TwoCols "T" exOptions).2.1 "y" (by decide),
   (claim_C9_mismatch_behavior [("x", ⟨"int32", [3]⟩), ("y", ⟨"int32", [4]⟩)]
      h5TwoCols "T" exOptions).2.2 (by decide)⟩

/-- C4: a pre-existing destination file makes the conversion of that
source file fail with FileExistsError before anything is created — the
world (and so the existing file's contents) is returned unchanged — and,
because FileExistsError is an OSError, the batch loop catches it and
continues with the next source file. -/
theorem claim_C4_destination_conflict (w : World) (infile outdir : String)
    (trees0 rest : List String) (options : ProcessOptions) {file : RFile}
    (hopen : openSource w infile = .ok file)
    (hhb : file.hasBranches = true)
    {branches1 : List (String × List String)}
    (hres : resolveBranchesIfEmpty file (resolveTrees trees0) [] = .ok branches1)
    {h0 : H5File} (hex : findKey w.fs (outName outdir infile) = some h0) :
    process_file w infile outdir [] trees0 options
      = (w, resolveTrees trees0,
         some (.fileExists
           ("File " ++ outName outdir infile ++ " already exists. Please delete."))) ∧
    mainLoop w (infile :: rest) outdir trees0 options =
      ⟨(mainLoop w rest outdir (resolveTrees trees0) options).world,
       (mainLoop w rest outdir (resolveTrees trees0) options).trees,
       (infile, some (.fileExists
         ("File " ++ outName outdir infile ++ " already exists. Please delete.")))
         :: (mainLoop w rest outdir (resolveTrees trees0) options).outcomes,
       (mainLoop w rest outdir (resolveTrees trees0) options).fatal⟩ := by
  have h1 : process_file w infile outdir [] trees0 options
      = (w, resolveTrees trees0,
         some (.fileExists
           ("File " ++ outName outdir infile ++ " already exists. Please delete."))) := by
    rw [process_file_eq w infile outdir [] trees0 options hopen hhb]
    simp only [hres,
      setup_outfile_conflict w.fs (outName outdir infile) file (resolveTrees trees0)
        branches1 options hex]
  refine ⟨h1, ?_⟩
  simp only [mainLoop_cons, h1, PyErr.isOSError, if_true]

/-- C4 witness: converting "in/a.root" into a world where "out/a.hdf5"
already exists fails with FileExistsError, leaves the world untouched
and the loop proceeds to "in/b.root". -/
theorem claim_C4_witness :
    process_file wConflict "in/a.root" "out" [] ["T"] exOptions
      = (wConflict, ["T"],
         some (.fileExists "File out/a.hdf5 already exists. Please delete.")) ∧
    mainLoop wConflict ["in/a.root", "in/b.root"] "out" ["T"] exOptions =
      ⟨(mainLoop wConflict ["in/b.root"] "out" ["T"] exOptions).world,
       (mainLoop wConflict ["in/b.root"] "out" ["T"] exOptions).trees,
       ("in/a.root", some (.fileExists "File out/a.hdf5 already exists. Please delete."))
         :: (mainLoop wConflict ["in/b.root"] "out" ["T"] exOptions).outcomes,
       (mainLoop wConflict ["in/b.root"] "out" ["T"] exOptions).fatal⟩ :=
  claim_C4_destination_conflict wConflict "in/a.root" "out" ["T"] ["in/b.root"]
    exOptions rfl rfl rfl rfl

/-- C5: the per-file error boundary is asymmetric: a failure classed as
OSError (unreadable source, destination conflict, disk errors) is caught
by the loop, logged, and the run continues with the remaining files; any
other exception class (TypeError from the handle check, KeyError from a
missing tree) escapes the per-file boundary and aborts the whole
remaining run.  FileExistsError and OSError are caught; KeyError and
TypeError are not. -/
theorem claim_C5_error_boundary (w : World) (f outfolder : String)
    (rest : List String) (trees : List String) (options : ProcessOptions)
    (w' : World) (trees' : List String) (e : PyErr)
    (hpf : process_file w f outfolder [] trees options = (w', trees', some e)) :
    (e.isOSError = true →
      mainLoop w (f :: rest) outfolder trees options =
        ⟨(mainLoop w' rest outfolder trees' options).world,
         (mainLoop w' rest outfolder trees' options).trees,
         (f, some e) :: (mainLoop w' rest outfolder trees' options).outcomes,
         (mainLoop w' rest outfolder trees' options).fatal⟩) ∧
    (e.isOSError = false →
      mainLoop w (f :: rest) outfolder trees options = ⟨w', trees', [(f, some e)], some e⟩) ∧
    (∀ m, (PyErr.osError m).isOSError = true) ∧
    (∀ m, (PyErr.fileExists m).isOSError = true) ∧
    (∀ m, (PyErr.keyError m).isOSError = false) ∧
    (∀ m, (PyErr.typeError m).isOSError = false) := by
  refine ⟨?_, ?_, fun m => rfl, fun m => rfl, fun m => rfl, fun m => rfl⟩
  · intro hos
    simp only [mainLoop_cons, hpf, hos, if_true]
  · intro hos
    simp only [mainLoop_cons, hpf, hos, Bool.false_eq_true, if_false]

/-- C5 witness: a destination conflict (OSError class) lets the run
proceed to the second file, whereas a TypeError from the source-handle
check aborts the run with the second file never attempted. -/
theorem claim_C5_witness :
    (mainLoop wConflict ["in/a.root", "in/b.root"] "out" ["T"] exOptions =
      ⟨(mainLoop wConflict ["in/b.root"] "out" ["T"] exOptions).world,
       (mainLoop wConflict ["in/b.root"] "out" ["T"] exOptions).trees,
       ("in/a.root", some (.fileExists "File out/a.hdf5 already exists. Please delete."))
         :: (mainLoop wConflict ["in/b.root"] "out" ["T"] exOptions).outcomes,
       (mainLoop wConflict ["in/b.root"] "out" ["T"] exOptions).fatal⟩) ∧
    (mainLoop wNoBranches ["in/a.root", "in/b.root"] "out" [] exOptions =
      ⟨wNoBranches, [],
       [("in/a.root", some (.typeError
         "Expected up.open to return TTree, did you provide the right tree name?"))],
       some (.typeError
         "Expected up.open to return TTree, did you provide the right tree name?")⟩) :=
  ⟨(claim_C5_error_boundary wConflict "in/a.root" "out" ["in/b.root"] ["T"] exOptions
      wConflict ["T"]
      (.fileExists "File out/a.hdf5 already exists. Please delete.") rfl).1 rfl,
   (claim_C5_error_boundary wNoBranches "in/a.root" "out" ["in/b.root"] [] exOptions
      wNoBranches []
      (.typeError "Expected up.open to return TTree, did you provide the right tree name?")
      rfl).2.1 rfl⟩

/-- C10: called with an empty trees list, `process_file` replaces the
caller's (shared, mutated-in-place) list with ["/"] on every exit path
past the handle type check, and the driver loop hands exactly that
mutated list to the processing of every subsequent file. -/
theorem claim_C10_shared_trees_mutation (w : World) (f : String)
    (rest : List String) (outdir : String) (options : ProcessOptions)
    {file : RFile}
    (hopen : openSource w f = .ok file)
    (hhb : file.hasBranches = true) :
    (process_file w f outdir [] [] options).2.1 = ["/"] ∧
    ((process_file w f outdir [] [] options).2.2 = none →
      mainLoop w (f :: rest) outdir [] options =
        ⟨(mainLoop (process_file w f outdir [] [] options).1 rest outdir ["/"]
            options).world,
         (mainLoop (process_file w f outdir [] [] options).1 rest outdir ["/"]
            options).trees,
         (f, none) :: (mainLoop (process_file w f outdir [] [] options).1 rest outdir
            ["/"] options).outcomes,
         (mainLoop (process_file w f outdir [] [] options).1 rest outdir ["/"]
            options).fatal⟩) := by
  have htr : (process_file w f outdir [] [] options).2.1 = ["/"] := by
    rw [process_file_trees w f outdir [] [] options hopen hhb]
    rfl
  refine ⟨htr, ?_⟩
  intro hok
  rcases hpf : process_file w f outdir [] [] options with ⟨w1, trees1, r1⟩
  rw [hpf] at htr hok
  dsimp only at htr hok
  subst htr
  subst hok
  simp only [mainLoop_cons, hpf]

theorem treeD_eq {file : RFile} {tree : String} {t : RTree}
    (hg : file.get tree = some t) : treeD file tree = t := by
  rw [treeD, hg]
  rfl

/-- C10 witness: converting the first concrete file with the shared
empty trees list leaves the list as ["/"], and the loop hands exactly
["/"] to the processing of the second file. -/
theorem claim_C10_witness :
    (process_file wOK "in/a.root" "out" [] [] exOptions).2.1 = ["/"] ∧
    mainLoop wOK ["in/a.root", "in/b.root"] "out" [] exOptions =
      ⟨(mainLoop (process_file wOK "in/a.root" "out" [] [] exOptions).1 ["in/b.root"]
          "out" ["/"] exOptions).world,
       (mainLoop (process_file wOK "in/a.root" "out" [] [] exOptions).1 ["in/b.root"]
          "out" ["/"] exOptions).trees,
       ("in/a.root", none) :: (mainLoop (process_file wOK "in/a.root" "out" [] []
          exOptions).1 ["in/b.root"] "out" ["/"] exOptions).outcomes,
       (mainLoop (process_file wOK "in/a.root" "out" [] [] exOptions).1 ["in/b.root"]
          "out" ["/"] exOptions).fatal⟩ :=
  ⟨(claim_C10_shared_trees_mutation wOK "in/a.root" ["in/b.root"] "out" exOptions
      rfl rfl).1,
   (claim_C10_shared_trees_mutation wOK "in/a.root" ["in/b.root"] "out" exOptions
      rfl rfl).2 rfl⟩

/-- C2: on a fresh destination, `setup_outfile` creates exactly one
dataset per probed column of each tree, at path `tree/column`, before any
append occurs: the created key list is exactly the probe-path list with
no duplicate and no omission, and each dataset starts with zero rows,
unbounded growth, the dtype observed in the tree's first batch, and the
run's compression configuration; when a tree's probe keys coincide with
its resolved column list, the created paths are exactly the resolved
columns' paths. -/
theorem claim_C2_dataset_creation (fs : List (String × H5File)) (outfilename : String)
    (file : RFile) (trees : List String) (branches : List (String × List String))
    (options : ProcessOptions)
    (hnc : findKey fs outfilename = none)
    (hget : ∀ tree ∈ trees, (file.get tree).isSome ∧ (findKey branches tree).isSome)
    (hnd : (probeAllPaths file trees).Nodup) :
    setup_outfile fs outfilename file trees branches options
      = ((outfilename, ⟨expectedDsets file options trees⟩) :: fs,
         .ok ⟨expectedDsets file options trees⟩) ∧
    (expectedDsets file options trees).map (·.1) = probeAllPaths file trees ∧
    ((expectedDsets file options trees).map (·.1)).Nodup ∧
    (∀ tree ∈ trees, ∀ t, file.get tree = some t →
      ∀ cols, findKey branches tree = some cols → probeKeys t = cols →
        probePaths file tree = cols.map (fun c => tree ++ "/" ++ c)) ∧
    (∀ tree ∈ trees, ∀ t, file.get tree = some t →
      ∀ b0 bs, t.batches = b0 :: bs →
      ∀ c arr, findKey b0 c = some arr →
        findKey (expectedDsets file options trees) (tree ++ "/" ++ c)
          = some ⟨arr.dtype, none, options.compression, options.compression_level, []⟩) := by
  refine ⟨setup_outfile_ok fs outfilename file trees branches options hnc hget hnd,
    expectedDsets_keys file options trees,
    by rw [expectedDsets_keys]; exact hnd, ?_, ?_⟩
  · intro tree htr t hg cols hcols hpk
    simp [probePaths, hg, hpk]
  · intro tree htr t hg b0 bs hbt c arr hfc
    exact expectedDsets_get file options htr hg hbt hfc hnd

/-- C2 witness: the concrete two-column tree "T". -/
theorem claim_C2_witness :
    setup_outfile [] "out/a.hdf5" fileT ["T"] [("T", ["x", "y"])] exOptions
      = (("out/a.hdf5", ⟨expectedDsets fileT exOptions ["T"]⟩) :: [],
         .ok ⟨expectedDsets fileT exOptions ["T"]⟩) ∧
    (expectedDsets fileT exOptions ["T"]).map (·.1) = probeAllPaths fileT ["T"] ∧
    ((expectedDsets fileT exOptions ["T"]).map (·.1)).Nodup ∧
    (∀ tree ∈ ["T"], ∀ t, fileT.get tree = some t →
      ∀ cols, findKey [("T", ["x", "y"])] tree = some cols → probeKeys t = cols →
        probePaths fileT tree = cols.map (fun c => tree ++ "/" ++ c)) ∧
    (∀ tree ∈ ["T"], ∀ t, fileT.get tree = some t →
      ∀ b0 bs, t.batches = b0 :: bs →
      ∀ c arr, findKey b0 c = some arr →
        findKey (expectedDsets fileT exOptions ["T"]) (tree ++ "/" ++ c)
          = some ⟨arr.dtype, none, exOptions.compression, exOptions.compression_level, []⟩) :=
  claim_C2_dataset_creation [] "out/a.hdf5" fileT ["T"] [("T", ["x", "y"])] exOptions
    rfl (by decide) (by decide)

/-- C1: for a source file that opens to a conforming handle, a fresh
destination, resolvable trees and branch entries, collision-free dataset
paths, and batches that conform to the probe batch's (duplicate-free) key
list, the whole per-file conversion succeeds and every dataset's final
content equals, in order, the concatenation of its column's values across
all batches of its tree — the probe batch's values appearing exactly
once, written during the streaming pass — and its final row count equals
the sum of the batch row counts. -/
theorem claim_C1_round_trip (w : World) (infile outdir : String)
    (branches0 : List (String × List String)) (trees0 : List String)
    (options : ProcessOptions) (file : RFile)
    (branches1 : List (String × List String))
    (hopen : openSource w infile = .ok file)
    (hhb : file.hasBranches = true)
    (hres : resolveBranchesIfEmpty file (resolveTrees trees0) branches0 = .ok branches1)
    (hnc : findKey w.fs (outName outdir infile) = none)
    (hget : ∀ tree ∈ resolveTrees trees0,
      (file.get tree).isSome ∧ (findKey branches1 tree).isSome)
    (hnd : (probeAllPaths file (resolveTrees trees0)).Nodup)
    (hconf : ∀ tree ∈ resolveTrees trees0,
      (probeKeys (treeD file tree)).Nodup ∧
      ∀ b ∈ (treeD file tree).batches, Batch.keys b = probeKeys (treeD file tree))
    (hrect : ∀ tree ∈ resolveTrees trees0,
      ∀ b ∈ (treeD file tree).batches, ∀ p ∈ b, p.2.data.length = batchRows b) :
    ∃ hfin : H5File,
      process_file w infile outdir branches0 trees0 options
        = ({ w with fs := (outName outdir infile, hfin) :: w.fs },
           resolveTrees trees0, none) ∧
      ∀ tree ∈ resolveTrees trees0, ∀ t, file.get tree = some t →
        ∀ b0 bs, t.batches = b0 :: bs →
        ∀ c arr, findKey b0 c = some arr →
          hfin.get (tree ++ "/" ++ c)
            = some ⟨arr.dtype, none, options.compression, options.compression_level,
                columnConcat t.batches c⟩ ∧
          (columnConcat t.batches c).length = (t.batches.map batchRows).sum := by
  have hconf' : ∀ tree ∈ resolveTrees trees0, ∀ t, file.get tree = some t →
      ∀ b ∈ t.batches, Batch.keys b = probeKeys t := by
    intro tree htr t hg b hb
    have h := (hconf tree htr).2
    rw [treeD_eq hg] at h
    exact h b hb
  have hnodup' : ∀ tree ∈ resolveTrees trees0, ∀ t, file.get tree = some t →
      (probeKeys t).Nodup := by
    intro tree htr t hg
    have h := (hconf tree htr).1
    rwa [treeD_eq hg] at h
  have hsetup := setup_outfile_ok w.fs (outName outdir infile) file
    (resolveTrees trees0) branches1 options hnc hget hnd
  have hex' : ∀ tree ∈ resolveTrees trees0, ∀ t, file.get tree = some t →
      ∀ c ∈ probeKeys t,
        (((⟨expectedDsets file options (resolveTrees trees0)⟩ : H5File)).get
          (tree ++ "/" ++ c)).isSome := by
    intro tree htr t hg c hc
    cases hbt : t.batches with
    | nil =>
      simp only [probeKeys, hbt] at hc
      simp at hc
    | cons b0 bs =>
      have hck : c ∈ Batch.keys b0 := by
        simp only [probeKeys, hbt] at hc
        exact hc
      obtain ⟨arr, hfc⟩ :=
        Option.isSome_iff_exists.mp ((findKey_isSome_iff b0 c).mpr hck)
      have hgot := expectedDsets_get file options htr hg hbt hfc hnd
      show (findKey (expectedDsets file options (resolveTrees trees0))
        (tree ++ "/" ++ c)).isSome
      rw [hgot]
      rfl
  obtain ⟨herr, hcontent⟩ := streamAll_spec file branches1 options
    (resolveTrees trees0) ⟨expectedDsets file options (resolveTrees trees0)⟩
    hget hconf' hnodup' hex' hnd
  rcases hstr : streamAll file (resolveTrees trees0) branches1
      ⟨expectedDsets file options (resolveTrees trees0)⟩ options with ⟨hfin, err⟩
  rw [hstr] at herr hcontent
  dsimp only at herr hcontent
  subst herr
  refine ⟨hfin, ?_, ?_⟩
  · rw [process_file_eq w infile outdir branches0 trees0 options hopen hhb]
    simp only [hres, hsetup, hstr]
    rw [fsSet_cons_self, fsSet_of_absent (outName outdir infile) hfin w.fs hnc]
  · intro tree htr t hg b0 bs hbt c arr hfc
    have hck : c ∈ probeKeys t := by
      simp only [probeKeys, hbt]
      exact (findKey_isSome_iff b0 c).mp (by rw [hfc]; rfl)
    have hcol := hcontent tree htr t hg c hck
    have hgot := expectedDsets_get file options htr hg hbt hfc hnd
    simp only [H5File.get] at hcol
    constructor
    · show findKey hfin.dsets (tree ++ "/" ++ c) = _
      rw [hcol, hgot]
      simp [probeDataset]
    · apply columnConcat_length
      · intro b hb
        rw [findKey_isSome_iff]
        show c ∈ Batch.keys b
        rw [hconf' tree htr t hg b hb]
        simp only [probeKeys, hbt]
        exact (findKey_isSome_iff b0 c).mp (by rw [hfc]; rfl)
      · have h := hrect tree htr
        rwa [treeD_eq hg] at h

/-- C1 witness: the concrete root-column source converts end to end; the
single column x of the sole tree "/" ends with the concatenation of both
batches, of total length 5. -/
theorem claim_C1_witness :
    ∃ hfin : H5File,
      process_file wOK "in/a.root" "out" [] [] exOptions
        = ({ wOK with fs := (outName "out" "in/a.root", hfin) :: wOK.fs },
           resolveTrees [], none) ∧
      ∀ tree ∈ resolveTrees [], ∀ t, fileRoot.get tree = some t →
        ∀ b0 bs, t.batches = b0 :: bs →
        ∀ c arr, findKey b0 c = some arr →
          hfin.get (tree ++ "/" ++ c)
            = some ⟨arr.dtype, none, exOptions.compression, exOptions.compression_level,
                columnConcat t.batches c⟩ ∧
          (columnConcat t.batches c).length = (t.batches.map batchRows).sum :=
  claim_C1_round_trip wOK "in/a.root" "out" [] [] exOptions fileRoot [("/", ["x"])]
    rfl rfl rfl rfl (by decide) (by decide) (by decide) (by decide)
